import Mathlib

/-!
Verification of the Diffy changelog-generation pipeline against its
specification.  The definitions below are a shallow embedding of
`src/scripts/changelog-functions.js` and of the comprehensive branch of the
`/api/generate-changelog` route of the Express server: effectful calls
(octokit, OpenAI, supabase, the clock) become explicit function or value
parameters, JavaScript objects become structures with `Option` fields for
nullable/absent values, and JavaScript truthiness on strings (`null`,
`undefined` and `""` are falsy) is modelled by `jsTruthy`.
-/

namespace Diffy

/-! ### JavaScript value helpers -/

/-- Truthiness of a nullable JavaScript string: `null`/`undefined` (`none`)
and the empty string are falsy, every other string is truthy. -/
def jsTruthy : Option String → Bool
  | some s => s != ""
  | none => false

/-- The JavaScript expression `a || b` on nullable strings: `b` when `a` is
falsy, `a` otherwise. -/
def jsOrStr (a b : Option String) : Option String :=
  if jsTruthy a then a else b

/-! ### Data model: provider commit records and formatted commits -/

/-- A `{ name, email, date }` object as returned by the GitHub API inside
`commit.author` / `commit.committer`; every field may be absent. -/
structure GitPerson where
  name : Option String
  email : Option String
  date : Option String
deriving DecidableEq

/-- The `commit` payload of a GitHub list-commits item. -/
structure CommitPayload where
  author : Option GitPerson
  committer : Option GitPerson
  message : String
deriving DecidableEq

/-- The top-level `author` object of a GitHub list-commits item. -/
structure GitHubUser where
  login : Option String
deriving DecidableEq

/-- One raw commit record as returned by `octokit.repos.listCommits`. -/
structure RawCommit where
  sha : String
  commit : CommitPayload
  author : Option GitHubUser
deriving DecidableEq

/-- The internal commit structure produced by `formatCommit`
(`changelog-functions.js` lines 118-127). -/
structure Commit where
  sha : String
  date : Option String
  message : String
  body : String
  author_name : Option String
  author_email : Option String
deriving DecidableEq

/-- Splitting accumulator for `jsSplitNewline`: walks the characters,
collecting the current segment in reverse. -/
def splitLinesAux : List Char → List Char → List String
  | [], cur => [String.mk cur.reverse]
  | c :: rest, cur =>
    if c = '\n' then String.mk cur.reverse :: splitLinesAux rest []
    else splitLinesAux rest (c :: cur)

/-- The JavaScript `s.split('\n')` for a single-character separator: the
segments between newline characters, in order; the empty string splits to
`[""]`. -/
def jsSplitNewline (s : String) : List String :=
  splitLinesAux s.data []

/-- Embeds `formatCommit` (`changelog-functions.js` lines 118-127).
`commit.commit.author?.date || commit.commit.committer?.date || null`
becomes a nested `jsOrStr` chain ending in `none`; `message.split('\n')[0]`
is the head of the newline split; the body is everything after the first
newline when one exists. -/
def formatCommit (c : RawCommit) : Commit :=
  let msgLines := jsSplitNewline c.commit.message
  { sha := c.sha
    date := jsOrStr (c.commit.author.bind GitPerson.date)
      (jsOrStr (c.commit.committer.bind GitPerson.date) none)
    message := msgLines.headD ""
    body := if msgLines.length > 1 then String.intercalate "\n" msgLines.tail else ""
    author_name := jsOrStr (c.commit.author.bind GitPerson.name)
      (jsOrStr (c.author.bind GitHubUser.login) none)
    author_email := jsOrStr (c.commit.author.bind GitPerson.email) none }

/-! ### CommitSource: fetching commits -/

/-- Failure of a remote octokit call (thrown exception). -/
inductive GhError where
  | unavailable
  | unauthorized
deriving DecidableEq

/-- Embeds `getRecentCommits` (`changelog-functions.js` lines 30-44): the
single `octokit.repos.listCommits` outcome is the parameter; the
`catch` branch logs and returns `[]`. -/
def getRecentCommits (remote : Except GhError (List RawCommit)) : List Commit :=
  match remote with
  | .ok commitsData => commitsData.map formatCommit
  | .error _ => []

/-- One batch as constructed inside `getAllCommitsInBatches`
(`changelog-functions.js` lines 83-88). -/
structure Batch where
  commits : List Commit
  batchNumber : Nat
  fromDate : Option String
  toDate : Option String
deriving DecidableEq

/-- The batch object literal of `changelog-functions.js` lines 83-88:
`fromDate` is the date of the last formatted commit of the page and
`toDate` the date of the first; the page number is stored as
`batchNumber`. -/
def mkBatch (page : Nat) (formattedCommits : List Commit) : Batch :=
  { commits := formattedCommits
    batchNumber := page
    fromDate := formattedCommits.getLast?.bind Commit.date
    toDate := formattedCommits.head?.bind Commit.date }

/-- The `while` loop of `getAllCommitsInBatches`
(`changelog-functions.js` lines 62-105).  `fetch page` is the outcome of
`octokit.repos.listCommits` for that page; a thrown error propagates as
`.error`.  The first argument is fuel for structural recursion: the
top-level call passes `maxEntries`, and since every iteration of the
source loop appends exactly one batch while the loop guard is
`allBatches.length < maxEntries`, the loop runs at most `maxEntries`
iterations, so the fuel is exhausted only when the guard is false anyway
(the fuel-zero branch returns `acc` exactly like the failed guard). -/
def getAllCommitsInBatchesGo (fetch : Nat → Except GhError (List RawCommit))
    (perPage maxEntries : Nat) :
    Nat → Nat → List Batch → Except GhError (List Batch)
  | 0, _, acc => .ok acc
  | fuel + 1, page, acc =>
    if acc.length < maxEntries then
      match fetch page with
      | .error e => .error e
      | .ok commitsData =>
        if commitsData.isEmpty then .ok acc
        else
          let acc' := acc ++ [mkBatch page (commitsData.map formatCommit)]
          if commitsData.length < perPage then .ok acc'
          else if maxEntries ≤ acc'.length then .ok acc'
          else getAllCommitsInBatchesGo fetch perPage maxEntries fuel (page + 1) acc'
    else .ok acc

/-- Embeds `getAllCommitsInBatches` (`changelog-functions.js` lines 49-113):
`perPage = Math.min(batchSize, 100)`, the loop starts at page 1 with no
batches collected, and the surrounding `try`/`catch` turns any thrown
remote error into an empty result list. -/
def getAllCommitsInBatches (fetch : Nat → Except GhError (List RawCommit))
    (batchSize maxEntries : Nat) : List Batch :=
  match getAllCommitsInBatchesGo fetch (min batchSize 100) maxEntries maxEntries 1 [] with
  | .ok allBatches => allBatches
  | .error _ => []

/-- A paginated remote over a fixed finite history, GitHub style: page `p`
(1-based) holds the slice of `perPage` commits starting at offset
`(p - 1) * perPage`; pages past the end are empty; no call fails. -/
def pagedRemote (history : List RawCommit) (perPage : Nat) :
    Nat → Except GhError (List RawCommit) :=
  fun page => .ok ((history.drop ((page - 1) * perPage)).take perPage)

/-- Total number of commits across a list of batches. -/
def totalCommits (bs : List Batch) : Nat :=
  (bs.map fun b => b.commits.length).sum

/-- Ceiling division `(a + b - 1) / b`, the number of nonempty pages of
size `b` needed to cover `a` items. -/
def ceilDiv (a b : Nat) : Nat :=
  (a + b - 1) / b

/-! ### ChangelogSynthesizer: generateChangelog -/

/-- The object obtained by `JSON.parse` on the OpenAI response content;
each of the three expected keys may be absent. -/
structure GenResponse where
  title : Option String
  description : Option String
  category : Option String
deriving DecidableEq

/-- The closed category set listed in the generation prompt
(`changelog-functions.js` line 165). -/
def closedCategories : List String :=
  ["New Feature", "Enhancement", "Bug Fix", "Breaking Change",
   "Performance", "Documentation", "Other"]

/-- Embeds `generateChangelog` (`changelog-functions.js` lines 132-231).
The OpenAI round trip is the `response` parameter: `none` stands for a
transport error, empty content, or content that `JSON.parse` rejects;
`some parsedJson` is the parsed object.  The function returns `null` on an
empty commit list, on a failed round trip, and when the JavaScript check
`parsedJson.title && parsedJson.description && parsedJson.category` is
falsy; otherwise it returns `parsedJson` itself.  The `batchInfo`
argument of the source only decorates the prompt, so it does not appear
here. -/
def generateChangelog (commits : List Commit) (response : Option GenResponse) :
    Option GenResponse :=
  if commits.isEmpty then none
  else
    match response with
    | none => none
    | some parsedJson =>
      if jsTruthy parsedJson.title && jsTruthy parsedJson.description
          && jsTruthy parsedJson.category then
        some parsedJson
      else none

/-! ### EntryStore: saveChangelog -/

/-- The `repoInfo` argument of `saveChangelog`: the server passes
`{ owner, name }`, `getRepositoryInfo` would pass an object with
`fullName`. -/
structure RepoInfo where
  owner : Option String
  name : Option String
  fullName : Option String
deriving DecidableEq

/-- A `{ from, to }` date range (field names `from`/`to` in the source;
`from` is a Lean keyword, hence `fromTs`/`toTs`). -/
structure DateRange where
  fromTs : Option String
  toTs : Option String
deriving DecidableEq

/-- The row submitted to `supabase.from('changelog_entries').insert`
(`changelog-functions.js` lines 238-254). -/
structure EntryToInsert where
  title : Option String
  description : Option String
  category : Option String
  version : Option String
  repo_owner : Option String
  repo_name : Option String
  metadata : Option String
deriving DecidableEq

/-- A persisted (or dry-run mock) changelog entry as returned by
`saveChangelog`. -/
structure SavedEntry where
  id : String
  title : Option String
  description : Option String
  category : Option String
  version : Option String
  repo_owner : Option String
  repo_name : Option String
  metadata : Option String
  published_at : String
deriving DecidableEq

/-- JSON rendering of a nullable string. -/
def jsonOptStr : Option String → String
  | some s => "\"" ++ s ++ "\""
  | none => "null"

/-- The `JSON.stringify({ date_range: dateRange })` call of
`changelog-functions.js` line 250, rendered for ranges whose fields are
nullable strings. -/
def stringifyDateRange (d : DateRange) : String :=
  "\x7b\"date_range\":\x7b\"from\":" ++ jsonOptStr d.fromTs ++
    ",\"to\":" ++ jsonOptStr d.toTs ++ "\x7d\x7d"

/-- The `entryToInsert` object literal of `changelog-functions.js`
lines 238-254, including the JavaScript conditional spreads: the repo
fields exist only when `repoInfo` is non-null, with
`repoInfo.owner || repoInfo.fullName?.split('/')[0]` and
`repoInfo.name || repoInfo.fullName?.split('/')[1]` as values, and
`metadata` exists only when `dateRange` is non-null. -/
def mkEntryToInsert (changelog : GenResponse) (version : Option String)
    (dateRange : Option DateRange) (repoInfo : Option RepoInfo) : EntryToInsert :=
  { title := changelog.title
    description := changelog.description
    category := changelog.category
    version := jsOrStr version none
    repo_owner := match repoInfo with
      | some ri => jsOrStr ri.owner (ri.fullName.map fun s => (s.splitOn "/").headD "")
      | none => none
    repo_name := match repoInfo with
      | some ri => jsOrStr ri.name (ri.fullName.bind fun s => (s.splitOn "/").get? 1)
      | none => none
    metadata := dateRange.map stringifyDateRange }

/-- Embeds `saveChangelog` (`changelog-functions.js` lines 236-290).
`insert` is the supabase insert for one row: `none` models an insert
error or missing returned data, `some row` the returned row (the source
additionally rejects a returned row whose `id` is falsy).  `now` is
`new Date().toISOString()` at call time.  The second component of the
result is the list of rows submitted to the store: the dry-run branch
returns its mock before any insert, so it submits nothing. -/
def saveChangelog (insert : EntryToInsert → Option SavedEntry)
    (changelog : GenResponse) (version : Option String)
    (dateRange : Option DateRange) (dryRun : Bool) (repoInfo : Option RepoInfo)
    (now : String) : Option SavedEntry × List EntryToInsert :=
  let entryToInsert := mkEntryToInsert changelog version dateRange repoInfo
  if dryRun then
    (some { id := "dry-run-id"
            title := entryToInsert.title
            description := entryToInsert.description
            category := entryToInsert.category
            version := entryToInsert.version
            repo_owner := entryToInsert.repo_owner
            repo_name := entryToInsert.repo_name
            metadata := entryToInsert.metadata
            published_at := now }, [])
  else
    match insert entryToInsert with
    | none => (none, [entryToInsert])
    | some data => (if data.id = "" then none else some data, [entryToInsert])

/-! ### PipelineOrchestrator: processBatch / processAllBatches -/

/-- The effectful collaborators of one pipeline run, indexed by batch
number: the parsed OpenAI response for that batch, the supabase insert
behaviour for that batch, and the clock value at that batch's save. -/
structure PipelineEnv where
  respOf : Nat → Option GenResponse
  insertOf : Nat → EntryToInsert → Option SavedEntry
  nowOf : Nat → String

/-- `new Date(s).toISOString()` on the date strings flowing through the
pipeline: GitHub returns ISO-8601 UTC strings, on which the round trip is
the identity. -/
def newDateToISO (s : String) : String := s

/-- Embeds `processBatch` (`changelog-functions.js` lines 295-334).
`versionPfx` models the `versionPrefix` argument; the ternary
`versionPrefix ? ... : ...` uses JavaScript truthiness.  The date range is
rebuilt from the batch with null-propagating ISO conversion.  On a failed
generation the function returns `null` without touching the store; the
second component again collects the rows submitted to the store. -/
def processBatch (env : PipelineEnv) (batch : Batch) (batchNumber : Nat)
    (versionPfx : Option String) (dryRun : Bool) (repoInfo : Option RepoInfo) :
    Option SavedEntry × List EntryToInsert :=
  let batchVersion :=
    if jsTruthy versionPfx then versionPfx.getD "" ++ "-batch-" ++ toString batchNumber
    else "batch-" ++ toString batchNumber
  let dateRange : DateRange :=
    { fromTs := if jsTruthy batch.fromDate then batch.fromDate.map newDateToISO else none
      toTs := if jsTruthy batch.toDate then batch.toDate.map newDateToISO else none }
  match generateChangelog batch.commits (env.respOf batchNumber) with
  | none => (none, [])
  | some changelog =>
    saveChangelog (env.insertOf batchNumber) changelog (some batchVersion)
      (some dateRange) dryRun repoInfo (env.nowOf batchNumber)

/-- The `for` loop of `processAllBatches` (`changelog-functions.js`
lines 343-359): `n` is the 1-based batch number of the head of the
remaining list; a truthy per-batch result is appended to `results`, a
null one is dropped, and the loop continues either way (the inter-batch
delay has no observable effect here). -/
def processAllBatchesGo (env : PipelineEnv) (versionPfx : Option String)
    (dryRun : Bool) (repoInfo : Option RepoInfo) :
    List Batch → Nat → List SavedEntry × List EntryToInsert
  | [], _ => ([], [])
  | b :: rest, n =>
    let r := processBatch env b n versionPfx dryRun repoInfo
    let tailRes := processAllBatchesGo env versionPfx dryRun repoInfo rest (n + 1)
    (match r.1 with
     | some entry => entry :: tailRes.1
     | none => tailRes.1,
     r.2 ++ tailRes.2)

/-- Embeds `processAllBatches` (`changelog-functions.js` lines 339-362). -/
def processAllBatches (env : PipelineEnv) (batches : List Batch)
    (versionPfx : Option String) (dryRun : Bool) (repoInfo : Option RepoInfo) :
    List SavedEntry × List EntryToInsert :=
  processAllBatchesGo env versionPfx dryRun repoInfo batches 1

/-- The comprehensive branch of the `/api/generate-changelog` route
computes `versionPrefix = version || (repoInfo.name + '-history')`
before calling `processAllBatches` (server file, lines 530-531). -/
def serverVersionPfx (version : Option String) (repoName : String) : String :=
  match version with
  | some v => if v = "" then repoName ++ "-history" else v
  | none => repoName ++ "-history"

/-! ### Helper lemmas -/

theorem ceilDiv_zero_left (p : Nat) : ceilDiv 0 p = 0 := by
  unfold ceilDiv
  cases p with
  | zero => rfl
  | succ q => exact Nat.div_eq_of_lt (by omega)

theorem ceilDiv_eq_one (n p : Nat) (h0 : 0 < n) (h1 : n ≤ p) : ceilDiv n p = 1 := by
  unfold ceilDiv
  exact Nat.div_eq_of_lt_le (by omega) (by omega)

theorem ceilDiv_pos (n p : Nat) (h0 : 0 < n) (hp : 0 < p) : 1 ≤ ceilDiv n p := by
  unfold ceilDiv
  rw [Nat.le_div_iff_mul_le hp]
  omega

theorem ceilDiv_eq_zero (n p : Nat) (hp : 0 < p) (h : ceilDiv n p = 0) : n = 0 := by
  unfold ceilDiv at h
  rw [Nat.div_eq_zero_iff hp] at h
  omega

theorem ceilDiv_sub (n p : Nat) (hp : 0 < p) (h : p ≤ n) :
    ceilDiv n p = ceilDiv (n - p) p + 1 := by
  unfold ceilDiv
  have harith : n + p - 1 = (n - p + p - 1) + p := by omega
  rw [harith, Nat.add_div_right _ hp]

theorem totalCommits_append (xs ys : List Batch) :
    totalCommits (xs ++ ys) = totalCommits xs + totalCommits ys := by
  simp [totalCommits]

theorem totalCommits_singleton (b : Batch) : totalCommits [b] = b.commits.length := by
  simp [totalCommits]

/-- Structure of a successful sweep: the result extends the accumulator by a
tail of batches whose numbers ascend one by one from the starting page and
each of which was built by `mkBatch` from a nonempty fetched page. -/
theorem getAllCommitsInBatchesGo_ok (fetch : Nat → Except GhError (List RawCommit))
    (perPage maxEntries : Nat) :
    ∀ fuel page acc bs,
      getAllCommitsInBatchesGo fetch perPage maxEntries fuel page acc = .ok bs →
      ∃ tl, bs = acc ++ tl ∧
        (∀ i (hi : i < tl.length), (tl.get ⟨i, hi⟩).batchNumber = page + i) ∧
        (∀ b ∈ tl, ∃ cd : List RawCommit, cd ≠ [] ∧ fetch b.batchNumber = .ok cd ∧
          b = mkBatch b.batchNumber (cd.map formatCommit)) := by
  intro fuel
  induction fuel with
  | zero =>
    intro page acc bs h
    refine ⟨[], ?_, ?_, ?_⟩
    · simpa [getAllCommitsInBatchesGo] using h.symm
    · intro i hi; simp at hi
    · intro b hb; simp at hb
  | succ fuel ih =>
    intro page acc bs h
    rw [getAllCommitsInBatchesGo] at h
    by_cases hguard : acc.length < maxEntries
    · rw [if_pos hguard] at h
      cases hfetch : fetch page with
      | error e => rw [hfetch] at h; cases h
      | ok commitsData =>
        rw [hfetch] at h
        dsimp only at h
        by_cases hempty : commitsData.isEmpty
        · rw [if_pos hempty] at h
          cases h
          refine ⟨[], by simp, ?_, ?_⟩
          · intro i hi; simp at hi
          · intro b hb; simp at hb
        · rw [if_neg hempty] at h
          have hcdne : commitsData ≠ [] := by
            intro hc; rw [hc] at hempty; simp at hempty
          by_cases hshort : commitsData.length < perPage
          · rw [if_pos hshort] at h
            cases h
            refine ⟨[mkBatch page (commitsData.map formatCommit)], rfl, ?_, ?_⟩
            · intro i hi
              simp at hi
              subst hi
              simp [mkBatch]
            · intro b hb
              simp at hb
              subst hb
              exact ⟨commitsData, hcdne, hfetch, rfl⟩
          · rw [if_neg hshort] at h
            by_cases hmax : maxEntries ≤ (acc ++ [mkBatch page (commitsData.map formatCommit)]).length
            · rw [if_pos hmax] at h
              cases h
              refine ⟨[mkBatch page (commitsData.map formatCommit)], rfl, ?_, ?_⟩
              · intro i hi
                simp at hi
                subst hi
                simp [mkBatch]
              · intro b hb
                simp at hb
                subst hb
                exact ⟨commitsData, hcdne, hfetch, rfl⟩
            · rw [if_neg hmax] at h
              obtain ⟨tl, htl, hnum, hmem⟩ := ih (page + 1)
                (acc ++ [mkBatch page (commitsData.map formatCommit)]) bs h
              refine ⟨mkBatch page (commitsData.map formatCommit) :: tl, ?_, ?_, ?_⟩
              · rw [htl, List.append_assoc]; rfl
              · intro i hi
                cases i with
                | zero => simp [mkBatch]
                | succ j =>
                  have hj : j < tl.length := by simpa using hi
                  have hstep := hnum j hj
                  show (tl.get ⟨j, hj⟩).batchNumber = page + (j + 1)
                  rw [hstep]
                  omega
              · intro b hb
                cases hb with
                | head => exact ⟨commitsData, hcdne, hfetch, rfl⟩
                | tail _ htail => exact hmem b htail
    · rw [if_neg hguard] at h
      cases h
      refine ⟨[], by simp, ?_, ?_⟩
      · intro i hi; simp at hi
      · intro b hb; simp at hb

/-- Counting lemma for a sweep over a paginated finite history: as long as
`maxEntries` does not cut the sweep short, the loop starting at `page`
with accumulator `acc` succeeds and emits one batch per `ceilDiv` page of
the not-yet-visited suffix of the history, collecting all of its
commits. -/
theorem getAllCommitsInBatchesGo_count (history : List RawCommit) (perPage maxEntries : Nat)
    (hp : 0 < perPage) :
    ∀ fuel page acc, 0 < page → fuel + acc.length = maxEntries →
      acc.length + ceilDiv (history.length - (page - 1) * perPage) perPage ≤ maxEntries →
      ∃ bs,
        getAllCommitsInBatchesGo (pagedRemote history perPage) perPage maxEntries fuel page acc
            = .ok bs ∧
          bs.length = acc.length + ceilDiv (history.length - (page - 1) * perPage) perPage ∧
          totalCommits bs
            = totalCommits acc + (history.length - (page - 1) * perPage) := by
  intro fuel
  induction fuel with
  | zero =>
    intro page acc hpage hfuel hbound
    have hzero : ceilDiv (history.length - (page - 1) * perPage) perPage = 0 := by omega
    have hn : history.length - (page - 1) * perPage = 0 := ceilDiv_eq_zero _ _ hp hzero
    exact ⟨acc, rfl, by omega, by rw [hn]; omega⟩
  | succ fuel ih =>
    intro page acc hpage hfuel hbound
    have hpage1 : (page - 1) * perPage + perPage = page * perPage := by
      have hp1 : page - 1 + 1 = page := Nat.succ_pred_eq_of_pos hpage
      calc (page - 1) * perPage + perPage = (page - 1 + 1) * perPage := by ring
        _ = page * perPage := by rw [hp1]
    have hguard : acc.length < maxEntries := by omega
    rw [getAllCommitsInBatchesGo, if_pos hguard]
    have hfetch : pagedRemote history perPage page
        = .ok ((history.drop ((page - 1) * perPage)).take perPage) := rfl
    rw [hfetch]
    dsimp only
    have hremlen : (history.drop ((page - 1) * perPage)).length
        = history.length - (page - 1) * perPage := List.length_drop _ _
    by_cases hrem : history.drop ((page - 1) * perPage) = []
    · have hn : history.length - (page - 1) * perPage = 0 := by
        rw [← hremlen, hrem]; rfl
      rw [hrem]
      simp only [List.take_nil, List.isEmpty_nil, if_pos rfl]
      exact ⟨acc, rfl, by rw [hn, ceilDiv_zero_left]; omega, by rw [hn]; omega⟩
    · set rem := history.drop ((page - 1) * perPage) with hremdef
      have hnpos : 0 < rem.length := List.length_pos.mpr hrem
      have hcdlen : (rem.take perPage).length = min perPage rem.length :=
        List.length_take _ _
      have hcdne : ¬(rem.take perPage).isEmpty = true := by
        rw [List.isEmpty_iff]
        intro hnil
        have hlen0 := congrArg List.length hnil
        rw [hcdlen] at hlen0
        simp only [List.length_nil] at hlen0
        omega
      rw [if_neg hcdne]
      by_cases hshort : (rem.take perPage).length < perPage
      · have hremlt : rem.length < perPage := by
          rw [hcdlen] at hshort; omega
        have hcdfull : (rem.take perPage).length = rem.length := by
          rw [hcdlen]; omega
        rw [if_pos hshort]
        refine ⟨_, rfl, ?_, ?_⟩
        · have hone : ceilDiv (history.length - (page - 1) * perPage) perPage = 1 := by
            rw [← hremlen]
            exact ceilDiv_eq_one _ _ hnpos (by omega)
          rw [hone]
          simp
        · rw [totalCommits_append, totalCommits_singleton]
          show totalCommits acc + ((rem.take perPage).map formatCommit).length
              = totalCommits acc + (history.length - (page - 1) * perPage)
          rw [List.length_map, hcdfull, hremlen]
      · have hremge : perPage ≤ rem.length := by
          rw [hcdlen] at hshort; omega
        have hsuffge : perPage ≤ history.length - (page - 1) * perPage := by
          rw [← hremlen]; exact hremge
        have hlow : (page - 1) * perPage + perPage ≤ history.length := by omega
        have hcdfull : (rem.take perPage).length = perPage := by
          rw [hcdlen]; omega
        rw [if_neg hshort]
        have hacc1 : (acc ++ [mkBatch page ((rem.take perPage).map formatCommit)]).length
            = acc.length + 1 := by simp
        have hsplit : ceilDiv (history.length - (page - 1) * perPage) perPage
            = ceilDiv (history.length - page * perPage) perPage + 1 := by
          rw [ceilDiv_sub _ _ hp hsuffge]
          congr 2
          omega
        by_cases hmax : maxEntries
            ≤ (acc ++ [mkBatch page ((rem.take perPage).map formatCommit)]).length
        · rw [if_pos hmax]
          rw [hacc1] at hmax
          have hceil1 : ceilDiv (history.length - (page - 1) * perPage) perPage = 1 := by
            have hge1 : 1 ≤ ceilDiv (history.length - (page - 1) * perPage) perPage :=
              ceilDiv_pos _ _ (by omega) hp
            omega
          have hrest0 : ceilDiv (history.length - page * perPage) perPage = 0 := by omega
          have hrem0 : history.length - page * perPage = 0 :=
            ceilDiv_eq_zero _ _ hp hrest0
          have hexact : history.length - (page - 1) * perPage = perPage := by omega
          refine ⟨_, rfl, ?_, ?_⟩
          · rw [hceil1, hacc1]
          · rw [totalCommits_append, totalCommits_singleton]
            show totalCommits acc + ((rem.take perPage).map formatCommit).length
                = totalCommits acc + (history.length - (page - 1) * perPage)
            rw [List.length_map, hcdfull, hexact]
        · rw [if_neg hmax]
          rw [hacc1] at hmax
          have hnext : history.length - (page + 1 - 1) * perPage
              = history.length - page * perPage := by simp
          obtain ⟨bs, hgo, hlen, htot⟩ := ih (page + 1)
            (acc ++ [mkBatch page ((rem.take perPage).map formatCommit)])
            (by omega) (by rw [hacc1]; omega)
            (by rw [hacc1, hnext]; omega)
          refine ⟨bs, hgo, ?_, ?_⟩
          · rw [hlen, hacc1, hnext, hsplit]
            omega
          · rw [htot, totalCommits_append, totalCommits_singleton]
            show totalCommits acc + ((rem.take perPage).map formatCommit).length
                  + (history.length - (page + 1 - 1) * perPage)
                = totalCommits acc + (history.length - (page - 1) * perPage)
            rw [List.length_map, hcdfull, hnext]
            omega

/-! ### Concrete fixtures used by witnesses and counterexamples -/

/-- A simple raw commit with the given sha and author date. -/
def mkSimpleRaw (sha : String) (d : Option String) : RawCommit :=
  { sha := sha
    commit := { author := some { name := some "Ann", email := some "ann@x", date := d }
                committer := none
                message := "subject\nbody" }
    author := none }

/-- A five-commit history in newest-first provider order. -/
def sampleHistory : List RawCommit :=
  [mkSimpleRaw "c1" (some "2024-05-05T00:00:00Z"),
   mkSimpleRaw "c2" (some "2024-05-04T00:00:00Z"),
   mkSimpleRaw "c3" (some "2024-05-03T00:00:00Z"),
   mkSimpleRaw "c4" (some "2024-05-02T00:00:00Z"),
   mkSimpleRaw "c5" (some "2024-05-01T00:00:00Z")]

/-- A two-commit page whose newest commit has a timestamp and whose oldest
commit has none. -/
def mixedDateHistory : List RawCommit :=
  [mkSimpleRaw "d1" (some "2024-05-01T00:00:00Z"), mkSimpleRaw "d2" none]

/-- A remote that serves one full page and then fails. -/
def failingRemote : Nat → Except GhError (List RawCommit) :=
  fun page =>
    if page = 1 then .ok [mkSimpleRaw "c1" (some "2024-05-05T00:00:00Z")]
    else .error .unavailable

/-! ### C1 -/

/-- C1: for every `pageSize ∈ [1,100]` and every finite commit history of
length `N`, the paged sweep of `getAllCommitsInBatches` with an unbounded
`maxEntries` bound (any bound of at least `ceil(N / pageSize)`) emits
exactly `ceil(N / pageSize)` batches, and the total number of commits
across the emitted batches equals `N`. -/
theorem C1_paged_sweep_counts (history : List RawCommit) (batchSize maxEntries : Nat)
    (h1 : 1 ≤ batchSize) (h2 : batchSize ≤ 100)
    (h3 : ceilDiv history.length batchSize ≤ maxEntries) :
    (getAllCommitsInBatches (pagedRemote history batchSize) batchSize maxEntries).length
        = ceilDiv history.length batchSize ∧
      totalCommits (getAllCommitsInBatches (pagedRemote history batchSize) batchSize maxEntries)
        = history.length := by
  have hmin : min batchSize 100 = batchSize := Nat.min_eq_left h2
  obtain ⟨bs, hgo, hlen, htot⟩ := getAllCommitsInBatchesGo_count history batchSize maxEntries
    (by omega) maxEntries 1 [] (by omega) (by simp)
    (by simpa using h3)
  have hlen' : bs.length = ceilDiv history.length batchSize := by simpa using hlen
  have ht0 : totalCommits ([] : List Batch) = 0 := rfl
  have htot' : totalCommits bs = history.length := by
    rw [htot, ht0]
    simp
  unfold getAllCommitsInBatches
  rw [hmin, hgo]
  exact ⟨hlen', htot'⟩

/-- Witness for C1 at a five-commit history with page size 2 and bound 10. -/
theorem C1_witness :
    (1 ≤ 2 ∧ 2 ≤ 100 ∧ ceilDiv sampleHistory.length 2 ≤ 10) ∧
      ((getAllCommitsInBatches (pagedRemote sampleHistory 2) 2 10).length
          = ceilDiv sampleHistory.length 2 ∧
        totalCommits (getAllCommitsInBatches (pagedRemote sampleHistory 2) 2 10)
          = sampleHistory.length) :=
  ⟨⟨by decide, by decide, by decide⟩,
    C1_paged_sweep_counts sampleHistory 2 10 (by decide) (by decide) (by decide)⟩

/-! ### C2 -/

/-- C2 counterexample: `failingRemote` serves a nonempty page 1 and then
fails, yet `getAllCommitsInBatches` returns `[]` — the already-emitted
page is discarded and the result is indistinguishable from the sweep over
a repository with zero commits; likewise `getRecentCommits` maps a remote
failure to `[]`, the same value it returns for an empty repository,
instead of failing with a `SourceUnavailable` error. -/
theorem C2_counterexample :
    failingRemote 1 = .ok [mkSimpleRaw "c1" (some "2024-05-05T00:00:00Z")] ∧
      failingRemote 2 = .error .unavailable ∧
      getAllCommitsInBatches failingRemote 1 10 = [] ∧
      getAllCommitsInBatches (pagedRemote [] 1) 1 10 = [] ∧
      getRecentCommits (.error .unavailable) = [] ∧
      getRecentCommits (.ok []) = [] := by
  refine ⟨rfl, rfl, rfl, rfl, rfl, rfl⟩

/-- C2 (amended): remote failures are swallowed, not surfaced: whenever the
paged loop ends in a thrown error, `getAllCommitsInBatches` returns `[]`,
discarding every page emitted before the failure, and `getRecentCommits`
turns a failed fetch into the same empty sequence a zero-commit repository
produces. -/
theorem C2_amended_failures_swallowed (fetch : Nat → Except GhError (List RawCommit))
    (batchSize maxEntries : Nat) (e : GhError)
    (h : getAllCommitsInBatchesGo fetch (min batchSize 100) maxEntries maxEntries 1 []
        = .error e) :
    getAllCommitsInBatches fetch batchSize maxEntries = [] ∧
      getRecentCommits (.error e) = getRecentCommits (.ok []) := by
  constructor
  · unfold getAllCommitsInBatches
    rw [h]
  · rfl

/-- Witness for C2 (amended) at the one-good-page failing remote. -/
theorem C2_witness :
    (getAllCommitsInBatchesGo failingRemote (min 1 100) 10 10 1 []
        = .error .unavailable) ∧
      (getAllCommitsInBatches failingRemote 1 10 = [] ∧
        getRecentCommits (.error .unavailable) = getRecentCommits (.ok [])) :=
  ⟨rfl, C2_amended_failures_swallowed failingRemote 1 10 .unavailable rfl⟩

/-! ### C8 -/

/-- C8: for every remote and every configuration, the batches emitted by
the paged sweep carry sequence numbers forming the contiguous ascending
sequence 1, 2, … with no gaps (independently of anything that happens to
the batches afterwards, since emission precedes processing), and no
emitted batch has zero commits. -/
theorem C8_sequence_numbers (fetch : Nat → Except GhError (List RawCommit))
    (batchSize maxEntries : Nat) :
    (∀ i (hi : i < (getAllCommitsInBatches fetch batchSize maxEntries).length),
        ((getAllCommitsInBatches fetch batchSize maxEntries).get ⟨i, hi⟩).batchNumber = i + 1) ∧
      ∀ b ∈ getAllCommitsInBatches fetch batchSize maxEntries, b.commits ≠ [] := by
  unfold getAllCommitsInBatches
  cases hgo : getAllCommitsInBatchesGo fetch (min batchSize 100) maxEntries maxEntries 1 [] with
  | error e =>
    constructor
    · intro i hi; simp at hi
    · intro b hb; simp at hb
  | ok bs =>
    obtain ⟨tl, htl, hnum, hmem⟩ :=
      getAllCommitsInBatchesGo_ok fetch (min batchSize 100) maxEntries maxEntries 1 [] bs hgo
    have htl' : bs = tl := by simpa using htl
    subst htl'
    constructor
    · intro i hi
      have hstep := hnum i hi
      rw [hstep]
      omega
    · intro b hb
      obtain ⟨cd, hcd, _, hb'⟩ := hmem b hb
      rw [hb']
      simp [mkBatch, hcd]

/-- Witness for C8 at a concrete sweep: the second batch of the sample
sweep is a member and has a nonempty commit list. -/
theorem C8_witness :
    (mkBatch 2 (((sampleHistory.drop 2).take 2).map formatCommit)
        ∈ getAllCommitsInBatches (pagedRemote sampleHistory 2) 2 10) ∧
      (mkBatch 2 (((sampleHistory.drop 2).take 2).map formatCommit)).commits ≠ [] :=
  ⟨by decide,
    (C8_sequence_numbers (pagedRemote sampleHistory 2) 2 10).2
      (mkBatch 2 (((sampleHistory.drop 2).take 2).map formatCommit)) (by decide)⟩

/-! ### C3 -/

/-- A parsed response with a category outside the closed set. -/
def choreResponse : GenResponse :=
  { title := some "Chore work", description := some "Routine maintenance.",
    category := some "Chore" }

/-- C3 counterexample: a generation-service response whose `category` is
the out-of-set value "Chore" is accepted and returned verbatim by
`generateChangelog`, contradicting the claim that any category outside
the closed set is rejected. -/
theorem C3_counterexample :
    generateChangelog [formatCommit (mkSimpleRaw "c1" (some "2024-05-05T00:00:00Z"))]
        (some choreResponse) = some choreResponse ∧
      choreResponse.category = some "Chore" ∧
      "Chore" ∉ closedCategories := by
  refine ⟨rfl, rfl, by decide⟩

/-- C3 (amended): `generateChangelog` produces a draft exactly when the
commit list is nonempty, the service round trip produced a parsed object,
and all three fields `title`, `description`, `category` are present and
nonempty; the draft is the parsed object returned verbatim — in
particular the category value is never checked against the closed set and
never replaced by a default. -/
theorem C3_amended_validation (commits : List Commit) (response : Option GenResponse)
    (r : GenResponse) :
    generateChangelog commits response = some r ↔
      commits ≠ [] ∧ response = some r ∧ jsTruthy r.title = true ∧
        jsTruthy r.description = true ∧ jsTruthy r.category = true := by
  unfold generateChangelog
  by_cases hc : commits.isEmpty
  · have hnil : commits = [] := List.isEmpty_iff.mp hc
    subst hnil
    simp
  · have hc' : commits ≠ [] := fun h => hc (by simp [h])
    rw [if_neg hc]
    cases response with
    | none => simp
    | some p =>
      dsimp only
      by_cases ht : (jsTruthy p.title && jsTruthy p.description && jsTruthy p.category) = true
      · rw [if_pos ht]
        rw [Bool.and_eq_true, Bool.and_eq_true] at ht
        constructor
        · intro h
          have hp : p = r := by injection h
          subst hp
          exact ⟨hc', rfl, ht.1.1, ht.1.2, ht.2⟩
        · rintro ⟨-, hpr, -, -, -⟩
          exact hpr
      · rw [if_neg ht]
        constructor
        · intro h
          cases h
        · rintro ⟨-, hpr, ht1, ht2, ht3⟩
          have hp : p = r := by injection hpr
          subst hp
          rw [ht1, ht2, ht3] at ht
          simp at ht

/-! ### C4 -/

/-- The content of a saved entry apart from its identity and timestamp:
exactly the fields of the submitted row. -/
def contentFields (e : SavedEntry) : EntryToInsert :=
  { title := e.title, description := e.description, category := e.category,
    version := e.version, repo_owner := e.repo_owner, repo_name := e.repo_name,
    metadata := e.metadata }

/-- A store that accepts every row, echoing it back under a fresh id. -/
def echoStore : EntryToInsert → Option SavedEntry :=
  fun e =>
    some { id := "row-1", title := e.title, description := e.description,
           category := e.category, version := e.version,
           repo_owner := e.repo_owner, repo_name := e.repo_name,
           metadata := e.metadata, published_at := "2024-06-01T00:00:00.000Z" }

/-- A well-formed parsed generation response. -/
def okResponse : GenResponse :=
  { title := some "Improvements", description := some "Assorted fixes.",
    category := some "Enhancement" }

/-- C4 counterexample: two dry-run saves of the identical draft at two
clock instants return the same sentinel id (`dry-run-id` both times, so
the ids do not differ as claimed) while their contents differ in
`published_at` (so the results are not byte-identical apart from the
id). -/
theorem C4_counterexample :
    (saveChangelog echoStore okResponse none none true none
          "2024-06-01T00:00:00.000Z").1.map SavedEntry.id
        = (saveChangelog echoStore okResponse none none true none
          "2024-06-02T00:00:00.000Z").1.map SavedEntry.id ∧
      (saveChangelog echoStore okResponse none none true none
          "2024-06-01T00:00:00.000Z").1.map SavedEntry.published_at
        ≠ (saveChangelog echoStore okResponse none none true none
          "2024-06-02T00:00:00.000Z").1.map SavedEntry.published_at := by
  refine ⟨rfl, by decide⟩

/-- C4 (amended): a dry-run save performs zero store submissions and its
result does not depend on the store at all; it returns an entry shaped
like a live row whose content fields are exactly the row that a live
write would submit, whose id is always the fixed sentinel "dry-run-id"
(hence equal, not different, across repeated calls), and whose
`published_at` is the clock value of that call (hence the only content
difference between two dry runs over identical input). -/
theorem C4_amended_dry_run (insert insert2 : EntryToInsert → Option SavedEntry)
    (changelog : GenResponse) (version : Option String) (dateRange : Option DateRange)
    (repoInfo : Option RepoInfo) (now now2 : String) :
    (saveChangelog insert changelog version dateRange true repoInfo now).2 = [] ∧
      saveChangelog insert changelog version dateRange true repoInfo now
        = saveChangelog insert2 changelog version dateRange true repoInfo now ∧
      (saveChangelog insert changelog version dateRange true repoInfo now).1.map
          SavedEntry.id = some "dry-run-id" ∧
      (saveChangelog insert changelog version dateRange true repoInfo now).1.map
          SavedEntry.id
        = (saveChangelog insert2 changelog version dateRange true repoInfo now2).1.map
          SavedEntry.id ∧
      (saveChangelog insert changelog version dateRange true repoInfo now).1.map
          contentFields
        = (saveChangelog insert2 changelog version dateRange true repoInfo now2).1.map
          contentFields ∧
      (saveChangelog insert changelog version dateRange true repoInfo now).1.map
          contentFields
        = some (mkEntryToInsert changelog version dateRange repoInfo) ∧
      (saveChangelog insert changelog version dateRange true repoInfo now).1.map
          SavedEntry.published_at = some now :=
  ⟨rfl, rfl, rfl, rfl, rfl, rfl, rfl⟩

/-! ### C5 -/

/-- A parsed response whose three fields are all present but empty. -/
def emptyFieldsResponse : GenResponse :=
  { title := some "", description := some "", category := some "" }

/-- C5 counterexample: a draft with empty title, description and category
is accepted by `saveChangelog` in dry-run mode and in live mode with a
store that accepts the row — there is no `InvalidDraft` failure in either
mode. -/
theorem C5_counterexample :
    (saveChangelog echoStore emptyFieldsResponse none none true none
        "2024-06-01T00:00:00.000Z").1.isSome = true ∧
      (saveChangelog echoStore emptyFieldsResponse none none false none
        "2024-06-01T00:00:00.000Z").1.isSome = true ∧
      emptyFieldsResponse.title = some "" ∧
      emptyFieldsResponse.description = some "" ∧
      emptyFieldsResponse.category = some "" :=
  ⟨rfl, rfl, rfl, rfl, rfl⟩

/-- C5 (amended): `saveChangelog` performs no draft validation at all: a
dry-run save always succeeds whatever the draft fields contain, and a
live save fails exactly when the underlying store errors out or returns a
row with a falsy id — never because title, description or category is
empty. -/
theorem C5_amended_no_validation (insert : EntryToInsert → Option SavedEntry)
    (changelog : GenResponse) (version : Option String) (dateRange : Option DateRange)
    (repoInfo : Option RepoInfo) (now : String) :
    (saveChangelog insert changelog version dateRange true repoInfo now).1.isSome = true ∧
      ((saveChangelog insert changelog version dateRange false repoInfo now).1 = none ↔
        insert (mkEntryToInsert changelog version dateRange repoInfo) = none ∨
          (insert (mkEntryToInsert changelog version dateRange repoInfo)).map SavedEntry.id
            = some "") := by
  constructor
  · rfl
  · unfold saveChangelog
    cases hins : insert (mkEntryToInsert changelog version dateRange repoInfo) with
    | none => simp [hins]
    | some d =>
      by_cases hid : d.id = "" <;> simp [hins, hid]

/-! ### C6 -/

/-- C6 counterexample: a page holding a newest commit with a timestamp and
an oldest commit without one yields a batch whose set of non-null
timestamps is nonempty, yet whose `fromDate` (rangeStart) is null: the
null timestamp of the endpoint commit is not skipped, contradicting both
the nulls-are-skipped derivation and the claim that
`rangeStart ≤ rangeEnd` holds whenever some timestamp is non-null. -/
theorem C6_counterexample :
    (getAllCommitsInBatches (pagedRemote mixedDateHistory 2) 2 10).map Batch.fromDate
        = [none] ∧
      (getAllCommitsInBatches (pagedRemote mixedDateHistory 2) 2 10).map Batch.toDate
        = [some "2024-05-01T00:00:00Z"] ∧
      (getAllCommitsInBatches (pagedRemote mixedDateHistory 2) 2 10).map
          (fun b => b.commits.filterMap Commit.date)
        = [["2024-05-01T00:00:00Z"]] := by
  refine ⟨rfl, rfl, rfl⟩

/-- C6 (amended): every batch produced by the sweep is nonempty and its
range fields are the timestamps of the page's endpoint commits taken
as-is: `fromDate` is the (possibly null) date of the last commit of the
page and `toDate` the (possibly null) date of the first; nulls are not
skipped, so a range field is absent exactly when its endpoint commit has
no date, even if other commits in the page do. -/
theorem C6_amended_range_endpoints (fetch : Nat → Except GhError (List RawCommit))
    (batchSize maxEntries : Nat) (b : Batch)
    (hb : b ∈ getAllCommitsInBatches fetch batchSize maxEntries) :
    b.commits ≠ [] ∧ b.fromDate = b.commits.getLast?.bind Commit.date ∧
      b.toDate = b.commits.head?.bind Commit.date := by
  unfold getAllCommitsInBatches at hb
  cases hgo : getAllCommitsInBatchesGo fetch (min batchSize 100) maxEntries maxEntries 1 [] with
  | error e =>
    rw [hgo] at hb
    simp at hb
  | ok bs =>
    rw [hgo] at hb
    obtain ⟨tl, htl, -, hmem⟩ :=
      getAllCommitsInBatchesGo_ok fetch (min batchSize 100) maxEntries maxEntries 1 [] bs hgo
    have htl' : bs = tl := by simpa using htl
    subst htl'
    obtain ⟨cd, hcd, -, hb'⟩ := hmem b hb
    refine ⟨?_, ?_, ?_⟩
    · rw [hb']
      simp [mkBatch, hcd]
    · rw [hb']
      rfl
    · rw [hb']
      rfl

/-- Witness for C6 at the second page of the sample sweep. -/
theorem C6_witness :
    (mkBatch 3 (((sampleHistory.drop 4).take 2).map formatCommit)
        ∈ getAllCommitsInBatches (pagedRemote sampleHistory 2) 2 10) ∧
      ((mkBatch 3 (((sampleHistory.drop 4).take 2).map formatCommit)).commits ≠ [] ∧
        (mkBatch 3 (((sampleHistory.drop 4).take 2).map formatCommit)).fromDate
          = (mkBatch 3 (((sampleHistory.drop 4).take 2).map formatCommit)).commits.getLast?.bind
            Commit.date ∧
        (mkBatch 3 (((sampleHistory.drop 4).take 2).map formatCommit)).toDate
          = (mkBatch 3 (((sampleHistory.drop 4).take 2).map formatCommit)).commits.head?.bind
            Commit.date) :=
  ⟨by decide,
    C6_amended_range_endpoints (pagedRemote sampleHistory 2) 2 10
      (mkBatch 3 (((sampleHistory.drop 4).take 2).map formatCommit)) (by decide)⟩

/-! ### C7 -/

/-- The comprehensive loop splits over list concatenation: the batches of
`post` are processed with batch numbers continuing after `pre`, whatever
happened (success or failure) inside `pre`. -/
theorem processAllBatchesGo_append (env : PipelineEnv) (versionPfx : Option String)
    (dryRun : Bool) (repoInfo : Option RepoInfo) (post : List Batch) :
    ∀ (pre : List Batch) (n : Nat),
      (processAllBatchesGo env versionPfx dryRun repoInfo (pre ++ post) n).1
        = (processAllBatchesGo env versionPfx dryRun repoInfo pre n).1
          ++ (processAllBatchesGo env versionPfx dryRun repoInfo post (n + pre.length)).1 := by
  intro pre
  induction pre with
  | nil => intro n; simp [processAllBatchesGo]
  | cons b rest ih =>
    intro n
    show (processAllBatchesGo env versionPfx dryRun repoInfo (b :: (rest ++ post)) n).1 = _
    rw [processAllBatchesGo]
    rw [processAllBatchesGo]
    have harg : n + 1 + rest.length = n + (b :: rest).length := by
      simp only [List.length_cons]
      omega
    cases hr : (processBatch env b n versionPfx dryRun repoInfo).1 with
    | none =>
      simp only [hr]
      rw [ih (n + 1), harg]
    | some entry =>
      simp only [hr]
      rw [ih (n + 1), harg]
      rfl

/-- Each run of the comprehensive loop yields at most one entry per batch. -/
theorem processAllBatchesGo_length (env : PipelineEnv) (versionPfx : Option String)
    (dryRun : Bool) (repoInfo : Option RepoInfo) :
    ∀ (bl : List Batch) (n : Nat),
      (processAllBatchesGo env versionPfx dryRun repoInfo bl n).1.length ≤ bl.length := by
  intro bl
  induction bl with
  | nil => intro n; simp [processAllBatchesGo]
  | cons b rest ih =>
    intro n
    rw [processAllBatchesGo]
    cases hr : (processBatch env b n versionPfx dryRun repoInfo).1 with
    | none =>
      simp only [hr]
      calc (processAllBatchesGo env versionPfx dryRun repoInfo rest (n + 1)).1.length
          ≤ rest.length := ih (n + 1)
        _ ≤ (b :: rest).length := by simp
    | some entry =>
      simp only [hr, List.length_cons]
      have := ih (n + 1)
      omega

/-- C7: comprehensive-mode failures are isolated per batch: processing a
batch list splits over concatenation, with the later segment processed
under its own (continued) batch numbers regardless of how many batches of
the earlier segment failed; a single batch contributes its own entry on
success and nothing on failure, so the final entry list is exactly the
entries of the succeeded batches in sweep order; and the number of
successful entries never exceeds the number of attempted batches, making
`batchesSucceeded ≤ batchesAttempted` the guaranteed terminal state. -/
theorem C7_failure_isolation (env : PipelineEnv) (versionPfx : Option String)
    (dryRun : Bool) (repoInfo : Option RepoInfo) (pre post : List Batch) (n : Nat)
    (b : Batch) (batches : List Batch) :
    (processAllBatchesGo env versionPfx dryRun repoInfo (pre ++ post) n).1
        = (processAllBatchesGo env versionPfx dryRun repoInfo pre n).1
          ++ (processAllBatchesGo env versionPfx dryRun repoInfo post (n + pre.length)).1 ∧
      (processAllBatchesGo env versionPfx dryRun repoInfo [b] n).1
        = (processBatch env b n versionPfx dryRun repoInfo).1.toList ∧
      (processAllBatches env batches versionPfx dryRun repoInfo).1.length
        ≤ batches.length := by
  refine ⟨processAllBatchesGo_append env versionPfx dryRun repoInfo post pre n, ?_, ?_⟩
  · cases hr : (processBatch env b n versionPfx dryRun repoInfo).1 with
    | none => simp [processAllBatchesGo, hr]
    | some entry => simp [processAllBatchesGo, hr]
  · exact processAllBatchesGo_length env versionPfx dryRun repoInfo batches 1

/-! ### C9 -/

theorem batch_label_ne_empty (a b : String) : a ++ "-batch-" ++ b ≠ "" := by
  intro h
  have hlen := congrArg String.length h
  rw [String.length_append, String.length_append] at hlen
  have h7 : ("-batch-" : String).length = 7 := rfl
  have h0 : ("" : String).length = 0 := rfl
  omega

theorem history_suffix_ne_empty (a : String) : a ++ "-history" ≠ "" := by
  intro h
  have hlen := congrArg String.length h
  rw [String.length_append] at hlen
  have h8 : ("-history" : String).length = 8 := rfl
  have h0 : ("" : String).length = 0 := rfl
  omega

theorem serverVersionPfx_ne_empty (version : Option String) (repoName : String) :
    serverVersionPfx version repoName ≠ "" := by
  unfold serverVersionPfx
  cases version with
  | none => exact history_suffix_ne_empty repoName
  | some v =>
    dsimp only
    by_cases hv : v = ""
    · rw [if_pos hv]
      exact history_suffix_ne_empty repoName
    · rw [if_neg hv]
      exact hv

theorem jsTruthy_some {s : String} (h : s ≠ "") : jsTruthy (some s) = true := by
  simp [jsTruthy, h]

/-- The environment of a pipeline run where every batch generates the
well-formed `okResponse` and every insert is accepted by `echoStore`. -/
def sampleEnv : PipelineEnv :=
  { respOf := fun _ => some okResponse
    insertOf := fun _ => echoStore
    nowOf := fun _ => "2024-06-01T00:00:00.000Z" }

/-- A one-commit batch as the partitioner would build it. -/
def sampleBatch : Batch :=
  mkBatch 1 [formatCommit (mkSimpleRaw "c1" (some "2024-05-05T00:00:00Z"))]

/-- C9 counterexample: in comprehensive mode the route always passes
`version || (repoInfo.name + '-history')` as prefix, so a request that
supplies no version still yields the label `Diffy-history-batch-1` for
batch 1 — the bare `batch-1` form claimed for the no-prefix case is never
produced by the comprehensive route. -/
theorem C9_counterexample :
    serverVersionPfx none "Diffy" = "Diffy-history" ∧
      (processBatch sampleEnv sampleBatch 1 (some (serverVersionPfx none "Diffy")) true
          none).1.map SavedEntry.version = some (some "Diffy-history-batch-1") ∧
      some (some "Diffy-history-batch-1") ≠ some (some "batch-1") := by
  refine ⟨rfl, rfl, by decide⟩

/-- C9 (amended): with the comprehensive route's derived prefix
`version || (repoName + '-history')`, every row a batch submits to the
store and every dry-run entry a successful batch returns carries the
version label `{prefix}-batch-{n}`; since the derived prefix is never
empty, the prefix-less `batch-{n}` label is unreachable from the
comprehensive route. -/
theorem C9_amended_version_labels (env : PipelineEnv) (batch : Batch) (n : Nat)
    (version : Option String) (repoName : String) (repoInfo : Option RepoInfo) :
    ((processBatch env batch n (some (serverVersionPfx version repoName)) false repoInfo).2.map
          EntryToInsert.version
        = List.replicate
            (processBatch env batch n (some (serverVersionPfx version repoName)) false
              repoInfo).2.length
            (some (serverVersionPfx version repoName ++ "-batch-" ++ toString n))) ∧
      ((processBatch env batch n (some (serverVersionPfx version repoName)) true repoInfo).1.map
            SavedEntry.version = none ∨
        (processBatch env batch n (some (serverVersionPfx version repoName)) true repoInfo).1.map
            SavedEntry.version
          = some (some (serverVersionPfx version repoName ++ "-batch-" ++ toString n))) := by
  have hpfx : serverVersionPfx version repoName ≠ "" :=
    serverVersionPfx_ne_empty version repoName
  have htr : jsTruthy (some (serverVersionPfx version repoName)) = true := jsTruthy_some hpfx
  have hbv : serverVersionPfx version repoName ++ "-batch-" ++ toString n ≠ "" :=
    batch_label_ne_empty _ _
  have hbvt : jsTruthy (some (serverVersionPfx version repoName ++ "-batch-" ++ toString n))
      = true := jsTruthy_some hbv
  unfold processBatch
  rw [htr]
  simp only [if_true, Option.getD_some]
  cases hgen : generateChangelog batch.commits (env.respOf n) with
  | none => exact ⟨rfl, Or.inl rfl⟩
  | some changelog =>
    constructor
    · unfold saveChangelog
      simp only [Bool.false_eq_true, if_false]
      cases hins : env.insertOf n (mkEntryToInsert changelog
          (some (serverVersionPfx version repoName ++ "-batch-" ++ toString n))
          (some { fromTs := if jsTruthy batch.fromDate = true
                    then Option.map newDateToISO batch.fromDate else none
                  toTs := if jsTruthy batch.toDate = true
                    then Option.map newDateToISO batch.toDate else none }) repoInfo) with
      | none =>
        simp only [hins]
        unfold mkEntryToInsert jsOrStr
        rw [hbvt]
        simp
      | some d =>
        simp only [hins]
        unfold mkEntryToInsert jsOrStr
        rw [hbvt]
        by_cases hid : d.id = "" <;> simp [hid]
    · refine Or.inr ?_
      unfold saveChangelog
      simp only [if_true]
      unfold mkEntryToInsert jsOrStr
      rw [hbvt]
      simp

/-! ### C10 -/

theorem jsTruthy_ne_none {x : Option String} (h : jsTruthy x = true) : x ≠ none := by
  cases x with
  | none => simp [jsTruthy] at h
  | some s => simp

/-- A provider record whose author date is present but empty and whose
committer is absent. -/
def emptyDateRaw : RawCommit :=
  { sha := "abc"
    commit := { author := some { name := some "Al", email := none, date := some "" }
                committer := none
                message := "m" }
    author := none }

/-- C10 counterexample: the author date of `emptyDateRaw` is present (the
empty string, not null), the committer date is absent, and yet
`formatCommit` assigns a null timestamp — because the JavaScript `||`
chain treats the empty string as absent, a commit can receive a null
timestamp even though its author date is present. -/
theorem C10_counterexample :
    (formatCommit emptyDateRaw).date = none ∧
      emptyDateRaw.commit.author.bind GitPerson.date = some "" ∧
      emptyDateRaw.commit.author.bind GitPerson.date ≠ none := by
  refine ⟨rfl, rfl, by decide⟩

/-- C10 (amended): `formatCommit` resolves the timestamp by JavaScript
truthiness, not mere presence: the timestamp is the author date when that
is present and nonempty, otherwise the committer date when that is
present and nonempty, otherwise null — so the timestamp is null exactly
when both dates are absent or empty; the author name falls back the same
way from the commit author's name to the GitHub login. -/
theorem C10_amended_fallbacks (raw : RawCommit) :
    ((formatCommit raw).date = none ↔
        jsTruthy (raw.commit.author.bind GitPerson.date) = false ∧
          jsTruthy (raw.commit.committer.bind GitPerson.date) = false) ∧
      (jsTruthy (raw.commit.author.bind GitPerson.date) = true →
        (formatCommit raw).date = raw.commit.author.bind GitPerson.date) ∧
      (jsTruthy (raw.commit.author.bind GitPerson.date) = false →
        jsTruthy (raw.commit.committer.bind GitPerson.date) = true →
        (formatCommit raw).date = raw.commit.committer.bind GitPerson.date) ∧
      ((formatCommit raw).author_name = none ↔
        jsTruthy (raw.commit.author.bind GitPerson.name) = false ∧
          jsTruthy (raw.author.bind GitHubUser.login) = false) ∧
      (jsTruthy (raw.commit.author.bind GitPerson.name) = true →
        (formatCommit raw).author_name = raw.commit.author.bind GitPerson.name) := by
  unfold formatCommit jsOrStr
  by_cases h1 : jsTruthy (raw.commit.author.bind GitPerson.date)
  · by_cases h3 : jsTruthy (raw.commit.author.bind GitPerson.name)
    · simp [h1, h3, jsTruthy_ne_none h1, jsTruthy_ne_none h3]
    · by_cases h4 : jsTruthy (raw.author.bind GitHubUser.login)
      · simp [h1, h3, h4, jsTruthy_ne_none h1, jsTruthy_ne_none h4]
      · simp [h1, h3, h4, jsTruthy_ne_none h1]
  · by_cases h2 : jsTruthy (raw.commit.committer.bind GitPerson.date)
    · by_cases h3 : jsTruthy (raw.commit.author.bind GitPerson.name)
      · simp [h1, h2, h3, jsTruthy_ne_none h2, jsTruthy_ne_none h3]
      · by_cases h4 : jsTruthy (raw.author.bind GitHubUser.login)
        · simp [h1, h2, h3, h4, jsTruthy_ne_none h2, jsTruthy_ne_none h4]
        · simp [h1, h2, h3, h4, jsTruthy_ne_none h2]
    · by_cases h3 : jsTruthy (raw.commit.author.bind GitPerson.name)
      · simp [h1, h2, h3, jsTruthy_ne_none h3]
      · by_cases h4 : jsTruthy (raw.author.bind GitHubUser.login)
        · simp [h1, h2, h3, h4, jsTruthy_ne_none h4]
        · simp [h1, h2, h3, h4]

/-- Witness for C10 at a record with a truthy author date and name. -/
theorem C10_witness :
    (jsTruthy ((mkSimpleRaw "c1" (some "2024-05-05T00:00:00Z")).commit.author.bind
        GitPerson.date) = true) ∧
      (formatCommit (mkSimpleRaw "c1" (some "2024-05-05T00:00:00Z"))).date
        = (mkSimpleRaw "c1" (some "2024-05-05T00:00:00Z")).commit.author.bind GitPerson.date :=
  ⟨by decide,
    (C10_amended_fallbacks (mkSimpleRaw "c1" (some "2024-05-05T00:00:00Z"))).2.1 (by decide)⟩
